import Mathlib

/-!
Verification of the cognitive-complexity diagnostic pipeline of the
vscode-ts-cognilint extension (src/extension.ts), as a shallow embedding.

The embedding covers: the complexity-tree flattening (`getScoreSum`,
`flattenInner`), the symbol filtering and line matching
(`filterFunctionSymbols`, `findMatchingSymbol`), the severity
classification, the per-item processing loop of `processActiveFile`
(score cache + diagnostics), the per-document state maps and their
lifecycle handlers (close / unsupported / disabled), and a discrete-time
model of the per-document debounce timer.
-/

namespace TsCognilint

/-- One node of the complexity tree returned by the external analyzer:
`interface ComplexityItem { score?: number; line?: number; inner?: ComplexityItem[] }`.
Optional fields are `Option`; absent `inner` is modelled as `[]` (the code
always guards with `item.inner || []`). -/
inductive ComplexityItem : Type where
  | mk (score : Option Int) (line : Option Int) (inner : List ComplexityItem)

def ComplexityItem.score : ComplexityItem → Option Int
  | .mk s _ _ => s

def ComplexityItem.line : ComplexityItem → Option Int
  | .mk _ l _ => l

def ComplexityItem.inner : ComplexityItem → List ComplexityItem
  | .mk _ _ i => i

@[simp] theorem ComplexityItem.score_mk (s l : Option Int) (i : List ComplexityItem) :
    (ComplexityItem.mk s l i).score = s := rfl

@[simp] theorem ComplexityItem.line_mk (s l : Option Int) (i : List ComplexityItem) :
    (ComplexityItem.mk s l i).line = l := rfl

@[simp] theorem ComplexityItem.inner_mk (s l : Option Int) (i : List ComplexityItem) :
    (ComplexityItem.mk s l i).inner = i := rfl

/-- JavaScript truthiness of the optional `item.line`: present and nonzero. -/
def truthyLine : Option Int → Bool
  | none => false
  | some n => decide (n ≠ 0)

/-- `getScoreSum(inner)` from the source: recursively sums `item.score || 0`
over the item and all of its descendants, for every item of the list. -/
def getScoreSum : List ComplexityItem → Int
  | [] => 0
  | ComplexityItem.mk s _ inner :: rest =>
    s.getD 0 + getScoreSum inner + getScoreSum rest

/-- `flattenInner(inner)` from the source: for each item, compute
`adjustedScore = (item.score || 0) - getScoreSum(item.inner || [])`; if
`adjustedScore > 0 && item.line`, push `{...item, score: adjustedScore}`;
then append the flattening of the item's children. -/
def flattenInner : List ComplexityItem → List ComplexityItem
  | [] => []
  | ComplexityItem.mk s ln inner :: rest =>
    (if s.getD 0 - getScoreSum inner > 0 ∧ truthyLine ln = true
      then [ComplexityItem.mk (some (s.getD 0 - getScoreSum inner)) ln inner]
      else [])
      ++ flattenInner inner ++ flattenInner rest

/-- Pre-order enumeration of all nodes of a complexity forest. -/
def preorderItems : List ComplexityItem → List ComplexityItem
  | [] => []
  | ComplexityItem.mk s ln inner :: rest =>
    ComplexityItem.mk s ln inner :: (preorderItems inner ++ preorderItems rest)

/-- The per-node emission decision of `flattenInner`, isolated. -/
def emitItem : ComplexityItem → Option ComplexityItem
  | ComplexityItem.mk s ln inner =>
    if s.getD 0 - getScoreSum inner > 0 ∧ truthyLine ln = true
      then some (ComplexityItem.mk (some (s.getD 0 - getScoreSum inner)) ln inner)
      else none

/-- `item.score || 0`. -/
def itemScore (i : ComplexityItem) : Int :=
  i.score.getD 0

/-- The net score the code computes for one node:
`(item.score || 0) - getScoreSum(item.inner || [])`. -/
def itemNet : ComplexityItem → Int
  | ComplexityItem.mk s _ inner => s.getD 0 - getScoreSum inner

/-- Sum of the code's net scores over every node of the forest
(emitted and dropped alike). -/
def sumNets : List ComplexityItem → Int
  | [] => 0
  | ComplexityItem.mk s _ inner :: rest =>
    (s.getD 0 - getScoreSum inner) + sumNets inner + sumNets rest

/-- Sum of the (inclusive) scores of the root nodes of the forest: the
total tree score, since each root's score already includes its descendants. -/
def rootScoreSum : List ComplexityItem → Int
  | [] => 0
  | ComplexityItem.mk s _ _ :: rest => s.getD 0 + rootScoreSum rest

/-- Every item of the list is a leaf (empty `inner`). -/
def allLeaves : List ComplexityItem → Bool
  | [] => true
  | ComplexityItem.mk _ _ inner :: rest => inner.isEmpty && allLeaves rest

/-- No node of the forest has grandchildren: every node's children are leaves. -/
def noGrandchildren : List ComplexityItem → Bool
  | [] => true
  | ComplexityItem.mk _ _ inner :: rest => allLeaves inner && noGrandchildren rest

/-- Net contributions of the nodes `flattenInner` drops (net ≤ 0 or falsy line). -/
def droppedNetSum (forest : List ComplexityItem) : Int :=
  (((preorderItems forest).filter fun i => (emitItem i).isNone).map itemNet).sum

/-- The spec's flattening, for comparison with the source's `flattenInner`:
it subtracts only the sum of the direct children's scores
(`childSum = Σ child.score` over direct children, one level deep),
emitting when the net is positive and the line present. -/
def directChildScoreSum (inner : List ComplexityItem) : Int :=
  (inner.map itemScore).sum

/-- The spec's flattening (one-level child subtraction); see `directChildScoreSum`. -/
def flattenSpecDirect : List ComplexityItem → List ComplexityItem
  | [] => []
  | ComplexityItem.mk s ln inner :: rest =>
    (if s.getD 0 - directChildScoreSum inner > 0 ∧ truthyLine ln = true
      then [ComplexityItem.mk (some (s.getD 0 - directChildScoreSum inner)) ln inner]
      else [])
      ++ flattenSpecDirect inner ++ flattenSpecDirect rest

/-- A three-level tree: root score 15 at line 1, child score 5 at line 2,
grandchild score 2 at line 3. -/
def exDeep : List ComplexityItem :=
  [ComplexityItem.mk (some 15) (some 1)
    [ComplexityItem.mk (some 5) (some 2)
      [ComplexityItem.mk (some 2) (some 3) []]]]

/-- A two-level tree: root score 15 at line 1 with a single child of
score 5 at line 7 and no grandchildren. -/
def exShallow : List ComplexityItem :=
  [ComplexityItem.mk (some 15) (some 1)
    [ComplexityItem.mk (some 5) (some 7) []]]

example : (flattenInner exDeep).map itemScore = [8, 3, 2] := by
  simp [flattenInner, getScoreSum, truthyLine, exDeep, itemScore, ComplexityItem.score]
example : (flattenSpecDirect exDeep).map itemScore = [10, 3, 2] := by
  simp [flattenSpecDirect, directChildScoreSum, truthyLine, exDeep, itemScore,
    ComplexityItem.score]
example : (flattenInner exShallow).map (fun i => (i.line, i.score))
    = [(some 1, some 10), (some 7, some 5)] := by
  simp [flattenInner, getScoreSum, truthyLine, exShallow, ComplexityItem.score,
    ComplexityItem.line]
example : droppedNetSum exDeep = 0 := by
  simp [droppedNetSum, preorderItems, emitItem, getScoreSum, truthyLine, exDeep, itemNet]
example : noGrandchildren exShallow = true := by
  simp [noGrandchildren, allLeaves, exShallow]

theorem flattenInner_eq_filterMap : (l : List ComplexityItem) →
    flattenInner l = (preorderItems l).filterMap emitItem
  | [] => by simp [flattenInner, preorderItems]
  | ComplexityItem.mk s ln inner :: rest => by
    have h1 := flattenInner_eq_filterMap inner
    have h2 := flattenInner_eq_filterMap rest
    simp only [flattenInner, preorderItems, List.filterMap_cons, List.filterMap_append,
      emitItem]
    split <;> simp [h1, h2]

theorem emitItem_spec (i : ComplexityItem) :
    emitItem i = (if itemNet i > 0 ∧ truthyLine i.line = true
      then some (ComplexityItem.mk (some (itemNet i)) i.line i.inner) else none) := by
  cases i
  rfl

theorem sumNets_eq_preorder : (l : List ComplexityItem) →
    sumNets l = ((preorderItems l).map itemNet).sum
  | [] => by simp [sumNets, preorderItems]
  | ComplexityItem.mk s ln inner :: rest => by
    have h1 := sumNets_eq_preorder inner
    have h2 := sumNets_eq_preorder rest
    simp [sumNets, preorderItems, itemNet, h1, h2]
    ring

theorem itemScore_of_emitItem : (i j : ComplexityItem) → emitItem i = some j →
    itemScore j = itemNet i
  | ComplexityItem.mk s ln inner, j, h => by
    by_cases hc : (s.getD 0 - getScoreSum inner > 0 ∧ truthyLine ln = true)
    · simp only [emitItem, if_pos hc] at h
      cases h
      simp [itemScore, itemNet, ComplexityItem.score]
    · simp only [emitItem, if_neg hc] at h
      cases h

theorem emit_split_sum : (l : List ComplexityItem) →
    ((l.filterMap emitItem).map itemScore).sum
      + ((l.filter fun i => (emitItem i).isNone).map itemNet).sum
      = (l.map itemNet).sum
  | [] => by simp
  | i :: tl => by
    have ih := emit_split_sum tl
    cases hE : emitItem i with
    | none =>
      simp [List.filterMap_cons, List.filter_cons, hE]
      omega
    | some j =>
      have hs := itemScore_of_emitItem i j hE
      simp [List.filterMap_cons, List.filter_cons, hE, hs]
      omega

theorem sumNets_allLeaves : (l : List ComplexityItem) → allLeaves l = true →
    sumNets l = getScoreSum l
  | [], _ => by simp [sumNets, getScoreSum]
  | ComplexityItem.mk s ln inner :: rest, h => by
    simp only [allLeaves, Bool.and_eq_true] at h
    obtain ⟨h1, h2⟩ := h
    have hr := sumNets_allLeaves rest h2
    cases inner with
    | nil => simp [sumNets, getScoreSum, hr]
    | cons a b => simp [List.isEmpty] at h1

theorem sumNets_noGrandchildren : (l : List ComplexityItem) → noGrandchildren l = true →
    sumNets l = rootScoreSum l
  | [], _ => by simp [sumNets, rootScoreSum]
  | ComplexityItem.mk s ln inner :: rest, h => by
    simp only [noGrandchildren, Bool.and_eq_true] at h
    obtain ⟨h1, h2⟩ := h
    have hi := sumNets_allLeaves inner h1
    have hr := sumNets_noGrandchildren rest h2
    simp [sumNets, rootScoreSum, hi, hr]

/-- C1 (counterexample): `flattenInner` does NOT subtract only the direct
children's scores. On a root of score 15 with a child of score 5 that has a
grandchild of score 2, the code emits net 8 = 15 - (5 + 2) for the root,
whereas the claimed one-level subtraction would give 10 = 15 - 5. -/
theorem flattenInner_direct_child_sum_counterexample :
    (flattenInner exDeep).map itemScore = [8, 3, 2]
    ∧ (flattenSpecDirect exDeep).map itemScore = [10, 3, 2]
    ∧ (15 - (5 + 2) : Int) = 8 ∧ ((8 : Int) ≠ 15 - 5) := by
  refine ⟨?_, ?_, by decide, by decide⟩
  · simp [flattenInner, getScoreSum, truthyLine, exDeep, itemScore, ComplexityItem.score]
  · simp [flattenSpecDirect, directChildScoreSum, truthyLine, exDeep, itemScore,
      ComplexityItem.score]

/-- C1 (amended): for every input forest, `flattenInner` emits, in pre-order
(each parent's entry before its descendants', recursing into children whether
or not the node emitted), exactly the nodes whose net score — the node's
score minus the RECURSIVE sum of the scores of all its descendants
(`getScoreSum`), not just its direct children — is positive and whose line
is present (nonzero), carrying that net score. -/
theorem flattenInner_recursive_descendant_characterization (l : List ComplexityItem) :
    flattenInner l = (preorderItems l).filterMap emitItem
    ∧ ∀ i : ComplexityItem, emitItem i =
        (if itemNet i > 0 ∧ truthyLine i.line = true
          then some (ComplexityItem.mk (some (itemNet i)) i.line i.inner) else none) :=
  ⟨flattenInner_eq_filterMap l, emitItem_spec⟩

/-- C2 (counterexample): score conservation fails on a three-level tree
(root 15, child 5, grandchild 2): all three nodes are emitted (nothing is
dropped), the emitted net scores sum to 13, yet the total tree score is 15
(inclusive root score) — and 22 if read as the sum of all nodes' scores. -/
theorem flatten_conservation_counterexample :
    ((flattenInner exDeep).map itemScore).sum + droppedNetSum exDeep = 13
    ∧ rootScoreSum exDeep = 15 ∧ getScoreSum exDeep = 22
    ∧ ((13 : Int) ≠ 15) ∧ ((13 : Int) ≠ 22) := by
  refine ⟨?_, by simp [rootScoreSum, exDeep], by simp [getScoreSum, exDeep],
    by decide, by decide⟩
  simp [flattenInner, getScoreSum, truthyLine, exDeep, itemScore, ComplexityItem.score,
    droppedNetSum, preorderItems, emitItem, itemNet]

/-- C2 (amended): the concrete example holds — a root with score 15 and one
child with score 5 (no grandchildren, both with lines) yields exactly the
entries (line 1, net 10) and (line 7, net 5) — and conservation (emitted net
scores plus dropped nodes' net contributions equal the total tree score)
holds for every forest in which no node has grandchildren; for deeper trees
the code subtracts each descendant's score once per ancestor, so
conservation fails (see the counterexample). -/
theorem flatten_conservation_no_grandchildren :
    ((flattenInner exShallow).map (fun i => (i.line, i.score))
        = [(some 1, some 10), (some 7, some 5)])
    ∧ ∀ forest, noGrandchildren forest = true →
        ((flattenInner forest).map itemScore).sum + droppedNetSum forest
          = rootScoreSum forest := by
  constructor
  · simp [flattenInner, getScoreSum, truthyLine, exShallow, ComplexityItem.score,
      ComplexityItem.line]
  · intro forest h
    rw [flattenInner_eq_filterMap]
    calc ((List.filterMap emitItem (preorderItems forest)).map itemScore).sum
          + droppedNetSum forest
        = ((preorderItems forest).map itemNet).sum := by
          unfold droppedNetSum
          exact emit_split_sum (preorderItems forest)
      _ = sumNets forest := (sumNets_eq_preorder forest).symm
      _ = rootScoreSum forest := sumNets_noGrandchildren forest h

/-- C2 (witness): the conservation part applied to the concrete
no-grandchildren example. -/
theorem flatten_conservation_no_grandchildren_witness :
    ((flattenInner exShallow).map itemScore).sum + droppedNetSum exShallow
      = rootScoreSum exShallow :=
  flatten_conservation_no_grandchildren.2 exShallow
    (by simp [noGrandchildren, allLeaves, exShallow])

/-- A 0-based position in a document (`vscode.Position`). -/
structure Position where
  line : Nat
  character : Nat
deriving DecidableEq

/-- A range in a document (`vscode.Range`); `stop` models the source's
`range.end` (`end` is reserved in Lean). -/
structure Range where
  start : Position
  stop : Position
deriving DecidableEq

/-- The symbol kinds relevant to `filterFunctionSymbols`; every kind the
code does not single out behaves like `other`. -/
inductive SymbolKind : Type where
  | function
  | method
  | constructor
  | classKind
  | variableKind
  | other
deriving DecidableEq

/-- A declared symbol (`vscode.DocumentSymbol`), restricted to the fields
the code reads: `kind`, `selectionRange`, `children`. -/
inductive DocumentSymbol : Type where
  | mk (kind : SymbolKind) (selectionRange : Range) (children : List DocumentSymbol)

def DocumentSymbol.kind : DocumentSymbol → SymbolKind
  | .mk k _ _ => k

def DocumentSymbol.selectionRange : DocumentSymbol → Range
  | .mk _ r _ => r

def DocumentSymbol.children : DocumentSymbol → List DocumentSymbol
  | .mk _ _ c => c

@[simp] theorem DocumentSymbol.kind_mk (k : SymbolKind) (r : Range)
    (c : List DocumentSymbol) : (DocumentSymbol.mk k r c).kind = k := rfl

@[simp] theorem DocumentSymbol.selectionRange_mk (k : SymbolKind) (r : Range)
    (c : List DocumentSymbol) : (DocumentSymbol.mk k r c).selectionRange = r := rfl

@[simp] theorem DocumentSymbol.children_mk (k : SymbolKind) (r : Range)
    (c : List DocumentSymbol) : (DocumentSymbol.mk k r c).children = c := rfl

/-- `[SymbolKind.Function, SymbolKind.Method, SymbolKind.Constructor].includes(symbol.kind)`. -/
def isFunctionKind (k : SymbolKind) : Bool :=
  [SymbolKind.function, SymbolKind.method, SymbolKind.constructor].contains k

/-- `filterFunctionSymbols(symbols)` from the source: keep function, method
and constructor symbols, and recurse into every symbol's children
(the parent first, then its children's results, then the next sibling's). -/
def filterFunctionSymbols : List DocumentSymbol → List DocumentSymbol
  | [] => []
  | DocumentSymbol.mk k sr ch :: rest =>
    (if isFunctionKind k then [DocumentSymbol.mk k sr ch] else [])
      ++ filterFunctionSymbols ch ++ filterFunctionSymbols rest

/-- Pre-order enumeration of a symbol forest (parent before children). -/
def preorderSymbols : List DocumentSymbol → List DocumentSymbol
  | [] => []
  | DocumentSymbol.mk k sr ch :: rest =>
    DocumentSymbol.mk k sr ch :: (preorderSymbols ch ++ preorderSymbols rest)

/-- The matching predicate of `processActiveFile`:
`s.selectionRange.start.line === (item.line || 0) - 1` (JS arithmetic on
numbers, hence the comparison over `Int`). -/
def lineMatches (item : ComplexityItem) (s : DocumentSymbol) : Bool :=
  decide ((s.selectionRange.start.line : Int) = item.line.getD 0 - 1)

/-- `functionSymbols.find(s => s.selectionRange.start.line === (item.line || 0) - 1)`. -/
def findMatchingSymbol (functionSymbols : List DocumentSymbol) (item : ComplexityItem) :
    Option DocumentSymbol :=
  functionSymbols.find? (lineMatches item)

/-- `rangeToString(range)` from the source:
`` `${range.start.line},${range.start.character}-${range.end.line},${range.end.character}` ``. -/
def rangeToString (range : Range) : String :=
  toString range.start.line ++ "," ++ toString range.start.character ++ "-"
    ++ toString range.stop.line ++ "," ++ toString range.stop.character

/-- `vscode.DiagnosticSeverity` (the values the code can assign). -/
inductive DiagnosticSeverity : Type where
  | error
  | warning
  | information
  | hint
deriving DecidableEq

/-- The severity decision of `processActiveFile`, in source order:
`score > errorThreshold` gives Error, else `score > warningThreshold` gives
Warning, else `severity` stays `null` (the `score > 0` branch assigns
nothing). -/
def classify (score warningThreshold errorThreshold : Int) : Option DiagnosticSeverity :=
  if score > errorThreshold then some DiagnosticSeverity.error
  else if score > warningThreshold then some DiagnosticSeverity.warning
  else none

/-- A published diagnostic (`vscode.Diagnostic` plus the fields the code sets). -/
structure Diagnostic where
  range : Range
  message : String
  severity : DiagnosticSeverity
  source : String

/-- Association-list model of a JS `Map`: lookup of the (unique) key. -/
def alistGet {α : Type} : List (String × α) → String → Option α
  | [], _ => none
  | (k, v) :: rest, key => if k = key then some v else alistGet rest key

/-- `Map.set`: replace the existing entry in place, else append. -/
def alistSet {α : Type} : List (String × α) → String → α → List (String × α)
  | [], key, v => [(key, v)]
  | (k, w) :: rest, key, v =>
    if k = key then (key, v) :: rest else (k, w) :: alistSet rest key v

/-- `Map.delete`. -/
def alistDelete {α : Type} : List (String × α) → String → List (String × α)
  | [], _ => []
  | (k, v) :: rest, key =>
    if k = key then alistDelete rest key else (k, v) :: alistDelete rest key

/-- `Map.has`. -/
def hasKey {α : Type} (m : List (String × α)) (k : String) : Bool :=
  (alistGet m k).isSome

/-- The `complexityItems.forEach` body of `processActiveFile`, threading the
run-local `currentScores` map and `diagnostics` array: find the matching
symbol; skip if none or the item's score is undefined; record the score in
`currentScores` keyed by `rangeToString(selectionRange)`; then push a
diagnostic only when a severity was assigned. -/
def processItemsAux (functionSymbols : List DocumentSymbol) (wt et : Int) :
    List (String × Int) → List Diagnostic → List ComplexityItem →
      List (String × Int) × List Diagnostic
  | scores, diags, [] => (scores, diags)
  | scores, diags, item :: rest =>
    match findMatchingSymbol functionSymbols item, item.score with
    | none, _ => processItemsAux functionSymbols wt et scores diags rest
    | some _, none => processItemsAux functionSymbols wt et scores diags rest
    | some sym, some score =>
      let scores2 := alistSet scores (rangeToString sym.selectionRange) score
      match classify score wt et with
      | none => processItemsAux functionSymbols wt et scores2 diags rest
      | some sev =>
        processItemsAux functionSymbols wt et scores2
          (diags ++ [{ range := sym.selectionRange,
                       message := "Cognitive Complexity: " ++ toString score,
                       severity := sev, source := "tsCognilint" }]) rest

/-- The whole matching loop, started from the empty run-local state. -/
def processItems (functionSymbols : List DocumentSymbol) (wt et : Int)
    (items : List ComplexityItem) : List (String × Int) × List Diagnostic :=
  processItemsAux functionSymbols wt et [] [] items

theorem find?_eq_some_split {α : Type} {p : α → Bool} : (l : List α) → (x : α) →
    l.find? p = some x →
    p x = true ∧ ∃ l₁ l₂, l = l₁ ++ x :: l₂ ∧ ∀ y ∈ l₁, p y = false
  | [], x, h => by simp [List.find?] at h
  | a :: tl, x, h => by
    cases hpa : p a with
    | true =>
      rw [List.find?_cons_of_pos _ hpa] at h
      cases h
      exact ⟨hpa, [], tl, rfl, by simp⟩
    | false =>
      rw [List.find?_cons_of_neg _ (by simp [hpa])] at h
      obtain ⟨h1, l₁, l₂, heq, hall⟩ := find?_eq_some_split tl x h
      refine ⟨h1, a :: l₁, l₂, by simp [heq], ?_⟩
      intro y hy
      rcases List.mem_cons.mp hy with hy | hy
      · rw [hy]; exact hpa
      · exact hall y hy

theorem filterFunctionSymbols_eq : (l : List DocumentSymbol) →
    filterFunctionSymbols l
      = (preorderSymbols l).filter (fun s => isFunctionKind s.kind)
  | [] => by simp [filterFunctionSymbols, preorderSymbols]
  | DocumentSymbol.mk k sr ch :: rest => by
    have h1 := filterFunctionSymbols_eq ch
    have h2 := filterFunctionSymbols_eq rest
    simp only [filterFunctionSymbols, preorderSymbols, List.filter_cons, List.filter_append]
    by_cases hk : isFunctionKind k = true <;> simp [hk, h1, h2]

/-- C3: for every flat entry, the matched symbol is the first symbol of the
pre-order flattening of the declared-symbol tree restricted to kinds
function, method and constructor (excluded kinds' children are still
scanned) whose 0-based selectionRange start line equals the entry's 1-based
line minus 1; when no symbol matches, the entry yields no diagnostic, no
cache entry and no error; when several match, the first in pre-order wins. -/
theorem symbol_matching_first_preorder_function_symbol
    (syms : List DocumentSymbol) (item : ComplexityItem) :
    filterFunctionSymbols syms
        = (preorderSymbols syms).filter (fun s => isFunctionKind s.kind)
    ∧ (∀ s, findMatchingSymbol (filterFunctionSymbols syms) item = some s →
        lineMatches item s = true ∧
        ∃ l₁ l₂, filterFunctionSymbols syms = l₁ ++ s :: l₂
          ∧ ∀ y ∈ l₁, lineMatches item y = false)
    ∧ (findMatchingSymbol (filterFunctionSymbols syms) item = none →
        (∀ y ∈ filterFunctionSymbols syms, lineMatches item y = false) ∧
        ∀ wt et scores diags,
          processItemsAux (filterFunctionSymbols syms) wt et scores diags [item]
            = (scores, diags)) := by
  refine ⟨filterFunctionSymbols_eq syms, ?_, ?_⟩
  · intro s h
    exact find?_eq_some_split _ s h
  · intro h
    constructor
    · intro y hy
      have := List.find?_eq_none.mp h y hy
      simpa using this
    · intro wt et scores diags
      simp [processItemsAux, h]

def rngClass : Range := { start := { line := 1, character := 0 }, stop := { line := 9, character := 1 } }

def rngM1 : Range := { start := { line := 2, character := 2 }, stop := { line := 4, character := 3 } }

def rngM2 : Range := { start := { line := 2, character := 10 }, stop := { line := 2, character := 20 } }

def symM1 : DocumentSymbol := DocumentSymbol.mk SymbolKind.method rngM1 []

def symM2 : DocumentSymbol := DocumentSymbol.mk SymbolKind.method rngM2 []

def symsEx : List DocumentSymbol :=
  [DocumentSymbol.mk SymbolKind.classKind rngClass [symM1, symM2]]

def itemEx : ComplexityItem := ComplexityItem.mk (some 12) (some 3) []

/-- C3 (witness): a class symbol is excluded but its two methods on line 2
are scanned; the entry at 1-based line 3 matches the first of them. -/
theorem symbol_matching_witness :
    lineMatches itemEx symM1 = true ∧
    ∃ l₁ l₂, filterFunctionSymbols symsEx = l₁ ++ symM1 :: l₂
      ∧ ∀ y ∈ l₁, lineMatches itemEx y = false := by
  have hF : filterFunctionSymbols symsEx = [symM1, symM2] := by
    simp [filterFunctionSymbols, symsEx, symM1, symM2,
      show isFunctionKind SymbolKind.classKind = false from by decide,
      show isFunctionKind SymbolKind.method = true from by decide]
  have hfind : findMatchingSymbol (filterFunctionSymbols symsEx) itemEx = some symM1 := by
    rw [hF]; rfl
  exact (symbol_matching_first_preorder_function_symbol symsEx itemEx).2.1 symM1 hfind

/-- C4: with warningThreshold 10 and errorThreshold 20, classification gives
None at 10, Warning at 11 and 20, Error at 21; in general the error check is
evaluated first (any score above the error threshold is Error), a score at
most the error threshold but above the warning threshold is Warning, and a
score at or below both thresholds yields no diagnostic even when positive. -/
theorem classify_thresholds_spec :
    classify 10 10 20 = none
    ∧ classify 11 10 20 = some DiagnosticSeverity.warning
    ∧ classify 20 10 20 = some DiagnosticSeverity.warning
    ∧ classify 21 10 20 = some DiagnosticSeverity.error
    ∧ (∀ s wt et : Int, et < s → classify s wt et = some DiagnosticSeverity.error)
    ∧ (∀ s wt et : Int, s ≤ et → wt < s → classify s wt et = some DiagnosticSeverity.warning)
    ∧ (∀ s wt et : Int, s ≤ et → s ≤ wt → classify s wt et = none) := by
  refine ⟨by decide, by decide, by decide, by decide, ?_, ?_, ?_⟩
  · intro s wt et h
    unfold classify
    rw [if_pos h]
  · intro s wt et h1 h2
    have hA : ¬ (s > et) := by omega
    unfold classify
    rw [if_neg hA, if_pos h2]
  · intro s wt et h1 h2
    have hA : ¬ (s > et) := by omega
    have hB : ¬ (s > wt) := by omega
    unfold classify
    rw [if_neg hA, if_neg hB]

/-- C4 (witness): the general error rule applied at score 25. -/
theorem classify_thresholds_spec_witness :
    classify 25 10 20 = some DiagnosticSeverity.error :=
  classify_thresholds_spec.2.2.2.2.1 25 10 20 (by decide)

/-- C5 (counterexample): with warningThreshold 10 and errorThreshold 5
(misconfigured: error threshold below warning threshold), the score 7 —
above the error threshold — classifies as Error, not Warning as claimed. -/
theorem classify_misconfigured_counterexample :
    ((5 : Int) < 10) ∧ ((5 : Int) < 7)
    ∧ classify 7 10 5 = some DiagnosticSeverity.error
    ∧ classify 7 10 5 ≠ some DiagnosticSeverity.warning := by decide

/-- C5 (amended): when the error threshold is below the warning threshold,
classification of every score above the error threshold favors ERROR,
because the error check is evaluated first and wins (the spec's stated
reason holds; its stated outcome 'Warning' is reversed). -/
theorem classify_misconfigured_favors_error (s wt et : Int) (_hm : et < wt) (hs : et < s) :
    classify s wt et = some DiagnosticSeverity.error := by
  unfold classify
  rw [if_pos hs]

/-- C5 (witness): the amended rule at score 7, thresholds (10, 5). -/
theorem classify_misconfigured_favors_error_witness :
    classify 7 10 5 = some DiagnosticSeverity.error :=
  classify_misconfigured_favors_error 7 10 5 (by decide) (by decide)

/-- A text document, restricted to the fields the code reads:
`uri` (already as its string form, the key of every per-document map)
and `languageId`. -/
structure TextDocument where
  uri : String
  languageId : String

/-- `isSupportedLanguage(document)` from the source. -/
def isSupportedLanguage (document : TextDocument) : Bool :=
  match document.languageId with
  | "typescript" => true
  | "typescriptreact" => true
  | "javascript" => true
  | "javascriptreact" => true
  | _ => false

/-- The extension's module-level mutable state: the diagnostic collection,
the `complexityScores` cache, the `debounceTimers` map (timer handles
modelled as `Nat`), and the operator log (`console.error` output). -/
structure ExtState where
  diagnostics : List (String × List Diagnostic)
  scores : List (String × List (String × Int))
  timers : List (String × Nat)
  log : List String

/-- The `onDidCloseTextDocument` handler: delete the document's published
diagnostics, its score-cache entry, and — after `clearTimeout` — its
debounce-timer entry. -/
def onDidCloseTextDocument (st : ExtState) (doc : TextDocument) : ExtState :=
  { st with diagnostics := alistDelete st.diagnostics doc.uri,
            scores := alistDelete st.scores doc.uri,
            timers := alistDelete st.timers doc.uri }

/-- The clearing done by the unsupported-language and disabled branches of
`processActiveFile`: delete the document's diagnostics and score-cache
entry (the debounce-timer map is not touched there). -/
def clearForUnsupported (st : ExtState) (doc : TextDocument) : ExtState :=
  { st with diagnostics := alistDelete st.diagnostics doc.uri,
            scores := alistDelete st.scores doc.uri }

/-- Arming the debounce timer: `clearTimeout` of any existing timer followed
by `debounceTimers.set` (one map entry per document either way). -/
def armTimer (st : ExtState) (doc : TextDocument) (deadline : Nat) : ExtState :=
  { st with timers := alistSet st.timers doc.uri deadline }

/-- The synchronous part of `processActiveFile`: missing document does
nothing; an unsupported or disabled document gets its diagnostics and
scores cleared; otherwise the debounce timer is (re)armed. -/
def processActiveFileStep (st : ExtState) (document : Option TextDocument)
    (enabled : Bool) (deadline : Nat) : ExtState :=
  match document with
  | none => st
  | some doc =>
    if isSupportedLanguage doc = false then clearForUnsupported st doc
    else if enabled = false then clearForUnsupported st doc
    else armTimer st doc deadline

/-- The `catch` block of the debounce callback: log the error, then delete
the document's cached scores and published diagnostics. -/
def logAndClear (st : ExtState) (uri : String) (e : String) : ExtState :=
  { st with log := st.log ++ [e],
            scores := alistDelete st.scores uri,
            diagnostics := alistDelete st.diagnostics uri }

def isErr {α : Type} : Except String α → Bool
  | .error _ => true
  | .ok _ => false

/-- The debounce-timer callback of `processActiveFile`: remove the timer
entry, then run the pipeline over the two external results — flatten the
complexity tree, filter the symbols, match/classify, store the run's scores
and publish the run's diagnostics; any failure of either service (or of
parsing its output) reaches the catch block instead, which logs and clears
the document's scores and diagnostics. -/
def runAnalysis (st : ExtState) (document : TextDocument)
    (complexityResult : Except String (List ComplexityItem))
    (symbolsResult : Except String (List DocumentSymbol)) (wt et : Int) : ExtState :=
  let st1 : ExtState := { st with timers := alistDelete st.timers document.uri }
  match complexityResult with
  | .error e => logAndClear st1 document.uri e
  | .ok inner =>
    match symbolsResult with
    | .error e => logAndClear st1 document.uri e
    | .ok symbols =>
      let res := processItems (filterFunctionSymbols symbols) wt et (flattenInner inner)
      { st1 with scores := alistSet st1.scores document.uri res.1,
                 diagnostics := alistSet st1.diagnostics document.uri res.2 }

theorem alistGet_delete_self {α : Type} : (m : List (String × α)) → (k : String) →
    alistGet (alistDelete m k) k = none
  | [], _ => rfl
  | (k1, v) :: rest, k => by
    by_cases h : k1 = k
    · simp only [alistDelete, if_pos h]
      exact alistGet_delete_self rest k
    · simp only [alistDelete, if_neg h, alistGet, if_neg h]
      exact alistGet_delete_self rest k

theorem alistGet_delete_ne {α : Type} : (m : List (String × α)) → (k k2 : String) →
    k2 ≠ k → alistGet (alistDelete m k) k2 = alistGet m k2
  | [], _, _, _ => rfl
  | (k1, v) :: rest, k, k2, hne => by
    by_cases h : k1 = k
    · have h1 : k1 ≠ k2 := by rw [h]; exact fun hc => hne hc.symm
      simp only [alistDelete, if_pos h, alistGet, if_neg h1]
      exact alistGet_delete_ne rest k k2 hne
    · simp only [alistDelete, if_neg h, alistGet]
      by_cases h2 : k1 = k2
      · simp [h2]
      · simp only [if_neg h2]
        exact alistGet_delete_ne rest k k2 hne

theorem alistGet_set_self {α : Type} : (m : List (String × α)) → (k : String) → (v : α) →
    alistGet (alistSet m k v) k = some v
  | [], k, v => by simp [alistSet, alistGet]
  | (k1, w) :: rest, k, v => by
    by_cases h : k1 = k
    · simp [alistSet, if_pos h, alistGet]
    · simp only [alistSet, if_neg h, alistGet, if_neg h]
      exact alistGet_set_self rest k v

theorem hasKey_set_self {α : Type} (m : List (String × α)) (k : String) (v : α) :
    hasKey (alistSet m k v) k = true := by
  simp [hasKey, alistGet_set_self]

theorem alistGet_set_ne {α : Type} : (m : List (String × α)) → (k k2 : String) → (v : α) →
    k2 ≠ k → alistGet (alistSet m k v) k2 = alistGet m k2
  | [], k, k2, v, hne => by
    have h1 : ¬ k = k2 := fun hc => hne hc.symm
    simp [alistSet, alistGet, h1]
  | (k1, w) :: rest, k, k2, v, hne => by
    by_cases h : k1 = k
    · have h1 : k ≠ k2 := fun hc => hne hc.symm
      simp only [alistSet, if_pos h, alistGet, if_neg h1, h]
    · simp only [alistSet, if_neg h, alistGet]
      by_cases h2 : k1 = k2
      · simp [h2]
      · simp only [if_neg h2]
        exact alistGet_set_ne rest k k2 v hne

theorem hasKey_set_mono {α : Type} (m : List (String × α)) (k k2 : String) (v : α) :
    hasKey m k = true → hasKey (alistSet m k2 v) k = true := by
  intro h
  by_cases he : k = k2
  · rw [he]
    exact hasKey_set_self m k2 v
  · simpa [hasKey, alistGet_set_ne m k2 k v he] using h

/-- C6: if the complexity service, the symbol service, or the parsing of
their output fails during a run, the run publishes no partial diagnostic
set: the document's previously published diagnostics and its cached
range-to-score mapping are deleted, the error is appended to the operator
log only, and no other document's diagnostics are touched (so the error is
never surfaced as a user-facing diagnostic). -/
theorem runAnalysis_failure_clears_state (st : ExtState) (doc : TextDocument)
    (cr : Except String (List ComplexityItem)) (sr : Except String (List DocumentSymbol))
    (wt et : Int) (h : isErr cr = true ∨ isErr sr = true) :
    alistGet (runAnalysis st doc cr sr wt et).diagnostics doc.uri = none
    ∧ alistGet (runAnalysis st doc cr sr wt et).scores doc.uri = none
    ∧ (∃ e, (runAnalysis st doc cr sr wt et).log = st.log ++ [e])
    ∧ (∀ u, u ≠ doc.uri →
        alistGet (runAnalysis st doc cr sr wt et).diagnostics u
          = alistGet st.diagnostics u) := by
  cases cr with
  | error e =>
    refine ⟨?_, ?_, ⟨e, rfl⟩, ?_⟩
    · exact alistGet_delete_self _ _
    · exact alistGet_delete_self _ _
    · intro u hu
      exact alistGet_delete_ne _ _ _ hu
  | ok inner =>
    cases sr with
    | error e =>
      refine ⟨?_, ?_, ⟨e, rfl⟩, ?_⟩
      · exact alistGet_delete_self _ _
      · exact alistGet_delete_self _ _
      · intro u hu
        exact alistGet_delete_ne _ _ _ hu
    | ok symbols =>
      rcases h with h | h <;> simp [isErr] at h

def docW : TextDocument := { uri := "u", languageId := "typescript" }

def stW : ExtState :=
  { diagnostics := [("u", [])], scores := [("u", [("0,0-0,5", 3)])],
    timers := [("u", 1)], log := [] }

/-- C6 (witness): a failed complexity analysis clears the document's
published diagnostics. -/
theorem runAnalysis_failure_clears_state_witness :
    alistGet (runAnalysis stW docW (Except.error "parse failure")
      (Except.ok []) 10 20).diagnostics docW.uri = none :=
  (runAnalysis_failure_clears_state stW docW (Except.error "parse failure")
    (Except.ok []) 10 20 (Or.inl rfl)).1

/-- C8: after the document-close handler runs, the document's identity has
no remaining published diagnostics, no pending debounce timer and no
score-cache entry, whatever state the maps were in before. -/
theorem close_clears_all_state (st : ExtState) (doc : TextDocument) :
    alistGet (onDidCloseTextDocument st doc).diagnostics doc.uri = none
    ∧ alistGet (onDidCloseTextDocument st doc).scores doc.uri = none
    ∧ alistGet (onDidCloseTextDocument st doc).timers doc.uri = none :=
  ⟨alistGet_delete_self st.diagnostics doc.uri,
   alistGet_delete_self st.scores doc.uri,
   alistGet_delete_self st.timers doc.uri⟩

def docMd : TextDocument := { uri := "u", languageId := "markdown" }

def stOpen : ExtState :=
  { diagnostics := [("u", [])], scores := [("u", [])], timers := [("u", 7)], log := [] }

/-- C9 (counterexample): a document that becomes unsupported is NOT cleared
exactly as if closed: with a pending debounce timer armed, the
unsupported-branch clearing leaves the timer entry in place, while the
close handler removes it. -/
theorem unsupported_clear_differs_from_close :
    alistGet (processActiveFileStep stOpen (some docMd) true 99).timers "u" = some 7
    ∧ alistGet (onDidCloseTextDocument stOpen docMd).timers "u" = none
    ∧ (processActiveFileStep stOpen (some docMd) true 99).timers
      ≠ (onDidCloseTextDocument stOpen docMd).timers := by
  refine ⟨?_, ?_, ?_⟩
  · simp [processActiveFileStep, isSupportedLanguage, docMd, stOpen, clearForUnsupported,
      alistGet]
  · simp [onDidCloseTextDocument, docMd, stOpen, alistDelete, alistGet]
  · simp [processActiveFileStep, isSupportedLanguage, docMd, stOpen, clearForUnsupported,
      onDidCloseTextDocument, alistDelete]

/-- C9 (amended): when a document becomes unsupported, or is supported but
the extension is disabled, its published diagnostics and score cache are
cleared as on close, but — unlike close — a pending debounce timer is left
armed (the timer map is untouched); the document stays eligible: a later
qualifying event (supported and enabled) arms its debounce timer again. -/
theorem unsupported_clears_diagnostics_keeps_timer (st : ExtState)
    (docU docS : TextDocument) (hu : isSupportedLanguage docU = false)
    (hs : isSupportedLanguage docS = true) (en : Bool) (dl dl2 : Nat) :
    alistGet (processActiveFileStep st (some docU) en dl).diagnostics docU.uri = none
    ∧ alistGet (processActiveFileStep st (some docU) en dl).scores docU.uri = none
    ∧ (processActiveFileStep st (some docU) en dl).timers = st.timers
    ∧ alistGet (processActiveFileStep st (some docS) false dl).diagnostics docS.uri = none
    ∧ alistGet (processActiveFileStep st (some docS) false dl).scores docS.uri = none
    ∧ (processActiveFileStep st (some docS) false dl).timers = st.timers
    ∧ alistGet (processActiveFileStep (processActiveFileStep st (some docU) en dl)
        (some docS) true dl2).timers docS.uri = some dl2 := by
  have hstepU : processActiveFileStep st (some docU) en dl = clearForUnsupported st docU := by
    simp [processActiveFileStep, hu]
  have hstepS : processActiveFileStep st (some docS) false dl
      = clearForUnsupported st docS := by
    simp [processActiveFileStep, hs]
  refine ⟨?_, ?_, ?_, ?_, ?_, ?_, ?_⟩
  · rw [hstepU]
    exact alistGet_delete_self _ _
  · rw [hstepU]
    exact alistGet_delete_self _ _
  · rw [hstepU]
    rfl
  · rw [hstepS]
    exact alistGet_delete_self _ _
  · rw [hstepS]
    exact alistGet_delete_self _ _
  · rw [hstepS]
    rfl
  · rw [hstepU]
    simp [processActiveFileStep, hs, armTimer, clearForUnsupported]
    exact alistGet_set_self _ _ _

/-- C9 (witness): the amended statement at a concrete markdown document with
a pending timer, re-enabled afterwards for a typescript document of the
same identity. -/
theorem unsupported_clears_diagnostics_keeps_timer_witness :
    (processActiveFileStep stOpen (some docMd) true 5).timers = stOpen.timers :=
  (unsupported_clears_diagnostics_keeps_timer stOpen docMd docW rfl rfl true 5 9).2.2.1

/-- The fixed debounce delay of `processActiveFile` (300 ms). -/
def debounceDelay : Nat := 300

/-- One scheduling step of the per-document debounce timer at an event time
`t`: if the pending timer's deadline has passed, it fired (its run started
and the callback removed the timer entry); otherwise it is still pending. -/
def fireIfDue (pending : Option Nat) (t : Nat) (fires : List Nat) :
    Option Nat × List Nat :=
  match pending with
  | some d => if d ≤ t then (none, fires ++ [d]) else (some d, fires)
  | none => (none, fires)

/-- Discrete-time debounce semantics for one document: each qualifying event
at time `t` first lets an already-due timer fire, then `clearTimeout`s any
still-pending timer and arms a fresh one with deadline `t + debounceDelay`
(exactly the `debounceTimers.has / clearTimeout / set` sequence of the
source); after the last event the remaining timer fires. Returns the final
pending timer (always `none`) and the start times of all runs. -/
def debounceRun : Option Nat → List Nat → List Nat → Option Nat × List Nat
  | pending, fires, [] =>
    match pending with
    | some d => (none, fires ++ [d])
    | none => (none, fires)
  | pending, fires, t :: rest =>
    debounceRun (some (t + debounceDelay)) (fireIfDue pending t fires).2 rest

/-- The run start times produced by a sequence of qualifying-event times. -/
def debounceFires (edits : List Nat) : List Nat :=
  (debounceRun none [] edits).2

/-- The event times are ordered and each arrives within the delay window of
the previous one (counted from `t`). -/
def rapidAfter : Nat → List Nat → Bool
  | _, [] => true
  | t, u :: rest => (decide (t ≤ u) && decide (u < t + debounceDelay)) && rapidAfter u rest

/-- The time of the last event, starting from `t`. -/
def lastEditTime (t : Nat) : List Nat → Nat
  | [] => t
  | u :: rest => lastEditTime u rest

/-- Two consecutive run start times closer together than one run duration:
the second run starts while the first is still in flight. -/
def runsOverlap (dur : Nat) : List Nat → Bool
  | f1 :: f2 :: rest => decide (f2 < f1 + dur) || runsOverlap dur (f2 :: rest)
  | _ => false

theorem debounceRun_rapid : (edits : List Nat) → (t : Nat) → (fires : List Nat) →
    rapidAfter t edits = true →
    debounceRun (some (t + debounceDelay)) fires edits
      = (none, fires ++ [lastEditTime t edits + debounceDelay])
  | [], t, fires, _ => by simp [debounceRun, lastEditTime]
  | u :: rest, t, fires, h => by
    simp only [rapidAfter, Bool.and_eq_true, decide_eq_true_eq] at h
    obtain ⟨⟨h1, h2⟩, h3⟩ := h
    have hnd : ¬ (t + debounceDelay ≤ u) := by omega
    simp only [debounceRun, fireIfDue, if_neg hnd, lastEditTime]
    exact debounceRun_rapid rest u fires h3

/-- C7 (counterexample): the code keeps at most one debounce timer per
document, but nothing serializes the asynchronous runs the timers start:
two events 400 ms apart produce runs starting at 300 ms and 700 ms, and if
a run takes 500 ms the second run starts while the first is still in
flight — "at most one in-flight run per document at any instant" fails. -/
theorem debounce_overlapping_runs_counterexample :
    debounceFires [0, 400] = [300, 700]
    ∧ runsOverlap 500 (debounceFires [0, 400]) = true := by
  constructor
  · simp [debounceFires, debounceRun, fireIfDue, debounceDelay]
  · simp [debounceFires, debounceRun, fireIfDue, runsOverlap, debounceDelay]

/-- C7 (amended): the debounce-timer map holds at most one timer per
document (each new qualifying event cancels the pending timer and arms a
fresh one), and N rapid qualifying events within the delay window produce
exactly one run, started at the last event's time plus the delay; the code
does not, however, prevent two runs of the same document from being in
flight at once (see the counterexample). -/
theorem debounce_coalesces_rapid_events (t : Nat) (rest : List Nat)
    (h : rapidAfter t rest = true) :
    debounceFires (t :: rest) = [lastEditTime t rest + debounceDelay] := by
  have hstep : debounceRun none [] (t :: rest)
      = debounceRun (some (t + debounceDelay)) [] rest := by
    simp [debounceRun, fireIfDue]
  have := debounceRun_rapid rest t [] h
  simp [debounceFires, hstep, this]

/-- C7 (witness): three events at 0, 100 and 200 ms — each within 300 ms of
the previous — produce exactly one run, at 500 ms. -/
theorem debounce_coalesces_rapid_events_witness :
    debounceFires [0, 100, 200] = [500] :=
  debounce_coalesces_rapid_events 0 [100, 200] (by decide)

theorem processItemsAux_hasKey_mono (fs : List DocumentSymbol) (wt et : Int) :
    (items : List ComplexityItem) → (scores : List (String × Int)) →
    (diags : List Diagnostic) → (k : String) → hasKey scores k = true →
    hasKey (processItemsAux fs wt et scores diags items).1 k = true
  | [], scores, diags, k, h => by
    simp only [processItemsAux]
    exact h
  | item :: rest, scores, diags, k, h => by
    cases hf : findMatchingSymbol fs item with
    | none =>
      simp only [processItemsAux, hf]
      exact processItemsAux_hasKey_mono fs wt et rest scores diags k h
    | some sym =>
      cases hsc : item.score with
      | none =>
        simp only [processItemsAux, hf, hsc]
        exact processItemsAux_hasKey_mono fs wt et rest scores diags k h
      | some s =>
        cases hcl : classify s wt et with
        | none =>
          simp only [processItemsAux, hf, hsc, hcl]
          exact processItemsAux_hasKey_mono fs wt et rest _ diags k
            (hasKey_set_mono _ _ _ _ h)
        | some sev =>
          simp only [processItemsAux, hf, hsc, hcl]
          exact processItemsAux_hasKey_mono fs wt et rest _ _ k
            (hasKey_set_mono _ _ _ _ h)

theorem processItemsAux_diag_keys (fs : List DocumentSymbol) (wt et : Int) :
    (items : List ComplexityItem) → (scores : List (String × Int)) →
    (diags : List Diagnostic) →
    (∀ d ∈ diags, hasKey scores (rangeToString d.range) = true) →
    ∀ d ∈ (processItemsAux fs wt et scores diags items).2,
      hasKey (processItemsAux fs wt et scores diags items).1 (rangeToString d.range) = true
  | [], scores, diags, hinv => by
    intro d hd
    simp only [processItemsAux] at hd ⊢
    exact hinv d hd
  | item :: rest, scores, diags, hinv => by
    cases hf : findMatchingSymbol fs item with
    | none =>
      simp only [processItemsAux, hf]
      exact processItemsAux_diag_keys fs wt et rest scores diags hinv
    | some sym =>
      cases hsc : item.score with
      | none =>
        simp only [processItemsAux, hf, hsc]
        exact processItemsAux_diag_keys fs wt et rest scores diags hinv
      | some s =>
        cases hcl : classify s wt et with
        | none =>
          simp only [processItemsAux, hf, hsc, hcl]
          refine processItemsAux_diag_keys fs wt et rest _ diags ?_
          intro d hd
          exact hasKey_set_mono _ _ _ _ (hinv d hd)
        | some sev =>
          simp only [processItemsAux, hf, hsc, hcl]
          refine processItemsAux_diag_keys fs wt et rest _ _ ?_
          intro d hd
          rcases List.mem_append.mp hd with hd | hd
          · exact hasKey_set_mono _ _ _ _ (hinv d hd)
          · have hde := List.mem_singleton.mp hd
            subst hde
            exact hasKey_set_self _ _ _

theorem processItemsAux_cached (fs : List DocumentSymbol) (wt et : Int) :
    (items : List ComplexityItem) → (scores : List (String × Int)) →
    (diags : List Diagnostic) → (item : ComplexityItem) → item ∈ items →
    (sym : DocumentSymbol) → findMatchingSymbol fs item = some sym →
    item.score.isSome = true →
    hasKey (processItemsAux fs wt et scores diags items).1
      (rangeToString sym.selectionRange) = true
  | [], _, _, item, him, _, _, _ => absurd him (List.not_mem_nil item)
  | hd :: rest, scores, diags, item, him, sym, hf, hs => by
    rcases List.mem_cons.mp him with rfl | hmem
    · cases hsc : item.score with
      | none => rw [hsc] at hs; simp at hs
      | some s =>
        cases hcl : classify s wt et with
        | none =>
          simp only [processItemsAux, hf, hsc, hcl]
          exact processItemsAux_hasKey_mono fs wt et rest _ diags _
            (hasKey_set_self _ _ _)
        | some sev =>
          simp only [processItemsAux, hf, hsc, hcl]
          exact processItemsAux_hasKey_mono fs wt et rest _ _ _
            (hasKey_set_self _ _ _)
    · cases hfh : findMatchingSymbol fs hd with
      | none =>
        simp only [processItemsAux, hfh]
        exact processItemsAux_cached fs wt et rest scores diags item hmem sym hf hs
      | some sym2 =>
        cases hsch : hd.score with
        | none =>
          simp only [processItemsAux, hfh, hsch]
          exact processItemsAux_cached fs wt et rest scores diags item hmem sym hf hs
        | some s2 =>
          cases hclh : classify s2 wt et with
          | none =>
            simp only [processItemsAux, hfh, hsch, hclh]
            exact processItemsAux_cached fs wt et rest _ diags item hmem sym hf hs
          | some sev2 =>
            simp only [processItemsAux, hfh, hsch, hclh]
            exact processItemsAux_cached fs wt et rest _ _ item hmem sym hf hs

/-- C10: on a successful run, every matched (symbol, entry) pair whose score
is defined has its net score recorded in the run's score cache (keyed by the
range string) whether or not a diagnostic is produced — in particular
entries classified None are cached — and every published diagnostic's range
key is present in the cache: the diagnostic set covers a subset of the
cached entries. -/
theorem cache_superset_of_diagnostics (fs : List DocumentSymbol) (wt et : Int)
    (items : List ComplexityItem) :
    (∀ d ∈ (processItems fs wt et items).2,
      hasKey (processItems fs wt et items).1 (rangeToString d.range) = true)
    ∧ (∀ item ∈ items, ∀ sym, findMatchingSymbol fs item = some sym →
        item.score.isSome = true →
        hasKey (processItems fs wt et items).1 (rangeToString sym.selectionRange)
          = true) := by
  constructor
  · exact processItemsAux_diag_keys fs wt et items [] [] (by simp)
  · intro item him sym hf hs
    exact processItemsAux_cached fs wt et items [] [] item him sym hf hs

def rngW : Range :=
  { start := { line := 0, character := 0 }, stop := { line := 0, character := 5 } }

def symW : DocumentSymbol := DocumentSymbol.mk SymbolKind.function rngW []

def itemW : ComplexityItem := ComplexityItem.mk (some 5) (some 1) []

/-- C10 (witness): a matched entry with net score 5, at or below the warning
threshold 10 (classified None), is still cached under its range key. -/
theorem cache_superset_of_diagnostics_witness :
    hasKey (processItems [symW] 10 20 [itemW]).1 (rangeToString symW.selectionRange)
      = true :=
  (cache_superset_of_diagnostics [symW] 10 20 [itemW]).2 itemW
    (List.mem_cons_self itemW []) symW rfl rfl

end TsCognilint
